import Mathlib

/-!
Verification of the bounded-concurrency workflow example
(`docs/docs/examples/workflow/parallel_execution.ipynb`).

The notebook defines two workflows over the llama_index workflow engine:

* `SequentialWorkflow`: `start` emits one `ProcessEvent` per item of
  `["A", "B", "C"]` and records `num_to_collect`; `process_data` (default
  concurrency bound 1) turns `ProcessEvent(data)` into
  `ResultEvent("Processed: " ++ data)` after a simulated delay;
  `combine_results` collects `num_to_collect` results with
  `ctx.collect_events` and, once all have arrived, returns
  `StopEvent(", ".join(results))`.
* `ParallelWorkflow`: identical except `process_data` is declared with
  `num_workers=3`.

The engine itself (event bus, bounded worker pool, aggregator, driver) lives
in the external dependency; following the specification we model it as a
discrete-time scheduler: a driver state holds the FIFO queue of pending
process events, the set of running invocations with remaining durations, the
aggregation buffer, and the emitted event trace, and a `tick` function
performs one scheduling round (complete finished workers, feed their results
to the aggregator, dispatch queued events into free worker slots in FIFO
order).  The driver iterates `tick` under a fuel bound and fails with a
timeout when no terminal event appears in time.
-/

namespace WorkflowModel

/-- The event types of the notebook: `StartEvent`, `ProcessEvent(data)`,
`ResultEvent(result)`, `StopEvent(result)`. -/
inductive WEvent where
  | startEv : WEvent
  | processEv : String → WEvent
  | resultEv : String → WEvent
  | stopEv : String → WEvent
deriving DecidableEq

def isStart : WEvent → Bool
  | WEvent.startEv => true
  | _ => false

def isStop : WEvent → Bool
  | WEvent.stopEv _ => true
  | _ => false

/-- The input items sent by the `start` step of both workflows. -/
def data_list : List String := ["A", "B", "C"]

/-- The pure content of the `process_data` step: the result string carried by
the `ResultEvent` it returns (`f"Processed: {ev.data}"`). -/
def process_data (data : String) : String := "Processed: " ++ data

/-- The join performed by `combine_results` once all results are collected
(`", ".join([event.result for event in results])`). -/
def joinResults (results : List String) : String := String.intercalate ", " results

/-- Modelled from the spec: the aggregator (`ctx.collect_events`).  Given the
expected count `K`, the per-key buffer so far and an incoming result event, it
appends the event to the buffer and returns the full buffer exactly when its
size reaches `K`, otherwise a "not yet ready" `none`; earlier partial results
are never discarded. -/
def collect_events {α : Type} (K : Nat) (buffer : List α) (ev : α) : List α × Option (List α) :=
  let buf := buffer ++ [ev]
  if buf.length = K then (buf, some buf) else (buf, none)

/-- One arrival of the `combine_results` step: collect the incoming result;
when the buffer reaches the expected count, produce the payload of the
`StopEvent` (the `", "`-join of all collected results), otherwise `none`. -/
def combine_results (K : Nat) (buffer : List String) (ev : String) :
    List String × Option String :=
  let res := collect_events K buffer ev
  (res.1, Option.map joinResults res.2)

/-- Modelled from the spec: the overflow-checked aggregator of the error
taxonomy.  When more results arrive under a key than the expected count, it
fails with an overflow error instead of releasing again. -/
inductive AggError where
  | overflow : AggError
deriving DecidableEq

/-- Modelled from the spec: atomic check-and-append.  An arrival finding the
buffer already at the expected count is an overflow; otherwise it behaves as
`collect_events`. -/
def collect_events_checked {α : Type} (K : Nat) (buffer : List α) (ev : α) :
    Except AggError (List α × Option (List α)) :=
  if K ≤ buffer.length then Except.error AggError.overflow
  else Except.ok (collect_events K buffer ev)

/-- The per-arrival outputs of the aggregator over a whole arrival sequence,
starting from the given buffer. -/
def collectOutputs {α : Type} (K : Nat) (buffer : List α) : List α → List (Option (List α))
  | [] => []
  | e :: es =>
    let res := collect_events K buffer e
    res.2 :: collectOutputs K res.1 es

/-- The buffer left by the aggregator after a whole arrival sequence. -/
def collectBuffer {α : Type} (K : Nat) (buffer : List α) : List α → List α
  | [] => buffer
  | e :: es => collectBuffer K (collect_events K buffer e).1 es

/-- Running the checked aggregator over a whole arrival sequence: the final
buffer and the number of releases, or the first overflow error. -/
def collectRunChecked {α : Type} (K : Nat) (buffer : List α) :
    List α → Except AggError (List α × Nat)
  | [] => Except.ok (buffer, 0)
  | e :: es =>
    match collect_events_checked K buffer e with
    | Except.error err => Except.error err
    | Except.ok res =>
      match collectRunChecked K res.1 es with
      | Except.error err => Except.error err
      | Except.ok p => Except.ok (p.1, (if res.2.isSome then 1 else 0) + p.2)

/-- Modelled from the spec: the driver state of one workflow run.  `queue`
holds the data of `ProcessEvent`s waiting for a worker slot, in FIFO order;
`running` the in-flight `process_data` invocations with their remaining
durations; `buffer` the aggregation buffer of `combine_results`;
`numToCollect` the expected count recorded by `start`; `trace` the events
emitted so far; `stopped` the payload of the terminal event, once produced. -/
structure DriverState where
  queue : List String
  running : List (String × Nat)
  buffer : List String
  numToCollect : Nat
  trace : List WEvent
  stopped : Option String
deriving DecidableEq

/-- Feed one completed result into `combine_results`: extend the buffer,
record the `ResultEvent` (and the `StopEvent` on release) in the trace, and
halt the run on the first release. -/
def feedOne (st : DriverState) (r : String) : DriverState :=
  let res := combine_results st.numToCollect st.buffer r
  { st with
    buffer := res.1
    trace := st.trace ++ (WEvent.resultEv r ::
      (match res.2 with
       | some s => [WEvent.stopEv s]
       | none => []))
    stopped :=
      match st.stopped with
      | some s0 => some s0
      | none => res.2 }

/-- Feed the results completed in one round into `combine_results`, one at a
time, in completion order. -/
def feed (st : DriverState) : List String → DriverState
  | [] => st
  | r :: rs => feed (feedOne st r) rs

/-- Modelled from the spec: dispatch queued ready events into the free worker
slots of the bounded pool, in FIFO order; a dispatched item `d` runs for
`dur d` rounds. -/
def dispatch (N : Nat) (dur : String → Nat) (st : DriverState) : DriverState :=
  let free := N - st.running.length
  { st with
    queue := st.queue.drop free
    running := st.running ++ (st.queue.take free).map (fun d => (d, dur d)) }

/-- Modelled from the spec: the completion phase of one scheduling round.
Every running invocation advances one round; those reaching zero complete, in
pool order, and their results are fed to `combine_results`. -/
def completeStep (st : DriverState) : DriverState :=
  feed
    { st with running := (st.running.map (fun p => (p.1, p.2 - 1))).filter (fun p => p.2 != 0) }
    (((st.running.map (fun p => (p.1, p.2 - 1))).filter (fun p => p.2 == 0)).map
      (fun p => process_data p.1))

/-- Modelled from the spec: one scheduling round of a live run: complete
finished workers and, unless that produced the terminal event, dispatch queued
events into the freed slots in FIFO order. -/
def tickRun (N : Nat) (dur : String → Nat) (st : DriverState) : DriverState :=
  match (completeStep st).stopped with
  | some _ => completeStep st
  | none => dispatch N dur (completeStep st)

/-- Modelled from the spec: one scheduling round.  If the run has produced its
terminal event nothing happens; otherwise perform one round of completion and
dispatch. -/
def tick (N : Nat) (dur : String → Nat) (st : DriverState) : DriverState :=
  match st.stopped with
  | some _ => st
  | none => tickRun N dur st

/-- The state after the `start` step of either workflow: it received the one
`StartEvent` of the run, set `num_to_collect` to the number of items, and
emitted one `ProcessEvent` per item, in order. -/
def initState (items : List String) : DriverState :=
  { queue := items
    running := []
    buffer := []
    numToCollect := items.length
    trace := WEvent.startEv :: items.map WEvent.processEv
    stopped := none }

/-- The multiset of processed labels a run state accounts for: the labels of
queued items, of running items, and the collected results. -/
def resultBag (st : DriverState) : Multiset String :=
  ((st.queue.map process_data : List String) : Multiset String) +
    ((st.running.map (fun p => process_data p.1) : List String) : Multiset String) +
    ((st.buffer : List String) : Multiset String)

/-- The trace of a run state contains a stop event exactly when the
aggregation buffer has reached the expected count. -/
def stopCountOk (st : DriverState) : Prop :=
  st.trace.countP isStop =
    if 1 ≤ st.numToCollect ∧ st.numToCollect ≤ st.buffer.length then 1 else 0

/-- The recorded terminal payload, when present, is the join of the released
buffer: the first `numToCollect` collected results. -/
def stoppedConsistent (st : DriverState) : Prop :=
  ∀ s, st.stopped = some s →
    s = joinResults (st.buffer.take st.numToCollect) ∧
      st.numToCollect ≤ st.buffer.length

/-- Modelled from the spec: the driver's failure taxonomy for a run — no
terminal event within the bounded run time is a timeout. -/
inductive RunError where
  | timeout : RunError
deriving DecidableEq

/-- Modelled from the spec: the driver loop.  Each round first halts with the
terminal event's payload if one has been produced, otherwise performs one
scheduling round; when the fuel bound is exhausted the run fails with a
timeout instead of hanging. -/
def runLoop (N : Nat) (dur : String → Nat) : Nat → DriverState → Except RunError String
  | 0, _ => Except.error RunError.timeout
  | fuel + 1, st =>
    match st.stopped with
    | some r => Except.ok r
    | none => runLoop N dur fuel (tick N dur st)

/-- Modelled from the spec: `Workflow.run` with the step's concurrency bound
`N`, the simulated per-item delays `dur`, and a fuel bound standing for the
run's timeout. -/
def runWorkflow (N : Nat) (dur : String → Nat) (items : List String) (fuel : Nat) :
    Except RunError String :=
  runLoop N dur fuel (initState items)

/-! ### Aggregator lemmas (collect_events) -/

theorem collect_events_fst {α : Type} (K : Nat) (buffer : List α) (ev : α) :
    (collect_events K buffer ev).1 = buffer ++ [ev] := by
  simp only [collect_events]
  split <;> rfl

theorem collect_events_snd_of_eq {α : Type} {K : Nat} {buffer : List α} {ev : α}
    (h : (buffer ++ [ev]).length = K) :
    (collect_events K buffer ev).2 = some (buffer ++ [ev]) := by
  simp [collect_events, h]

theorem collect_events_snd_of_ne {α : Type} {K : Nat} {buffer : List α} {ev : α}
    (h : (buffer ++ [ev]).length ≠ K) :
    (collect_events K buffer ev).2 = none := by
  have h' : ¬buffer.length + 1 = K := by simpa using h
  simp [collect_events, h']

theorem collectBuffer_eq {α : Type} (K : Nat) :
    ∀ (evs : List α) (buffer : List α), collectBuffer K buffer evs = buffer ++ evs
  | [], buffer => by simp [collectBuffer]
  | e :: es, buffer => by
    simp [collectBuffer, collect_events_fst, collectBuffer_eq K es]

theorem collectOutputs_eq {α : Type} (K : Nat) :
    ∀ (evs : List α) (buffer : List α), buffer.length + evs.length = K → 1 ≤ evs.length →
      collectOutputs K buffer evs =
        List.replicate (evs.length - 1) none ++ [some (buffer ++ evs)]
  | [], _, _, h2 => by simp at h2
  | [e], buffer, h1, _ => by
    have hlen : (buffer ++ [e]).length = K := by simpa using h1
    simp [collectOutputs, collect_events_snd_of_eq hlen, collect_events_fst]
  | e :: e2 :: es, buffer, h1, _ => by
    have hne : (buffer ++ [e]).length ≠ K := by
      simp at h1 ⊢
      omega
    have ih := collectOutputs_eq K (e2 :: es) (buffer ++ [e])
      (by simp at h1 ⊢; omega)
      (by simp)
    have hstep : collectOutputs K buffer (e :: e2 :: es) =
        (collect_events K buffer e).2 ::
          collectOutputs K (collect_events K buffer e).1 (e2 :: es) := rfl
    rw [hstep, collect_events_fst, collect_events_snd_of_ne hne, ih]
    simp [List.replicate_succ]

/-! ### Checked aggregator lemmas -/

theorem collectRunChecked_overflow {α : Type} (K : Nat) :
    ∀ (evs : List α) (buffer : List α), K < buffer.length + evs.length →
      buffer.length ≤ K → collectRunChecked K buffer evs = Except.error AggError.overflow
  | [], _, h1, h2 => by simp at h1; omega
  | e :: es, buffer, h1, h2 => by
    by_cases hfull : K ≤ buffer.length
    · simp [collectRunChecked, collect_events_checked, hfull]
    · have hchk : collect_events_checked K buffer e = Except.ok (collect_events K buffer e) := by
        simp [collect_events_checked, hfull]
      have ih := collectRunChecked_overflow K es (buffer ++ [e])
        (by simp only [List.length_append, List.length_singleton, List.length_cons] at h1 ⊢; omega)
        (by simp only [List.length_append, List.length_singleton]; omega)
      simp [collectRunChecked, hchk, collect_events_fst, ih]

theorem collectRunChecked_ok_of_full {α : Type} (K : Nat) :
    ∀ (evs : List α) (buffer bufF : List α) (n : Nat), K ≤ buffer.length →
      collectRunChecked K buffer evs = Except.ok (bufF, n) → n = 0
  | [], buffer, bufF, n, _, heq => by
    simp only [collectRunChecked, Except.ok.injEq, Prod.mk.injEq] at heq
    exact heq.2.symm
  | _ :: _, buffer, bufF, n, hfull, heq => by
    simp [collectRunChecked, collect_events_checked, hfull] at heq

theorem collectRunChecked_releases_le_one {α : Type} (K : Nat) :
    ∀ (evs : List α) (buffer bufF : List α) (n : Nat),
      collectRunChecked K buffer evs = Except.ok (bufF, n) → n ≤ 1
  | [], buffer, bufF, n, heq => by
    simp only [collectRunChecked, Except.ok.injEq, Prod.mk.injEq] at heq
    obtain ⟨-, h2⟩ := heq
    omega
  | e :: es, buffer, bufF, n, heq => by
    by_cases hfull : K ≤ buffer.length
    · simp [collectRunChecked, collect_events_checked, hfull] at heq
    · have hchk : collect_events_checked K buffer e = Except.ok (collect_events K buffer e) := by
        simp [collect_events_checked, hfull]
      simp only [collectRunChecked, hchk] at heq
      cases hrec : collectRunChecked K (collect_events K buffer e).1 es with
      | error err => rw [hrec] at heq; simp at heq
      | ok p =>
        rw [hrec] at heq
        simp only [Except.ok.injEq, Prod.mk.injEq] at heq
        by_cases hrel : (buffer ++ [e]).length = K
        · have hsnd := collect_events_snd_of_eq hrel
          have hp2 : p.2 = 0 := by
            apply collectRunChecked_ok_of_full K es (collect_events K buffer e).1 p.1 p.2
            · rw [collect_events_fst, hrel]
            · rw [hrec]
          rw [hsnd] at heq
          simp at heq
          omega
        · have hsnd := collect_events_snd_of_ne hrel
          have hp2 : p.2 ≤ 1 :=
            collectRunChecked_releases_le_one K es (collect_events K buffer e).1 p.1 p.2 hrec
          rw [hsnd] at heq
          simp at heq
          omega

/-! ### Claim theorems for the aggregator -/

/-- Claim C2: for every expected count `K ≥ 1` and every arrival order of `K`
result events under one aggregation key, the aggregator returns the "not
ready" `none` for each of the first `K - 1` arrivals, returns the full buffer
of all `K` collected results exactly once on the `K`-th arrival, and never
discards earlier partial results (after `i` arrivals the buffer is exactly the
first `i` events). -/
theorem collect_events_release_on_Kth {α : Type} (K : Nat) (evs : List α)
    (hK : 1 ≤ K) (hlen : evs.length = K) :
    collectOutputs K [] evs = List.replicate (K - 1) none ++ [some evs] ∧
    ∀ i, collectBuffer K [] (evs.take i) = evs.take i := by
  constructor
  · have h := collectOutputs_eq K evs [] (by simpa using hlen) (by omega)
    rw [h, hlen]
    simp
  · intro i
    simpa using collectBuffer_eq K (evs.take i) []

theorem collect_events_release_on_Kth_witness :
    (collectOutputs 2 [] ([10, 20] : List Nat) = List.replicate (2 - 1) none ++ [some [10, 20]] ∧
      ∀ i, collectBuffer 2 [] (([10, 20] : List Nat).take i) = ([10, 20] : List Nat).take i) :=
  collect_events_release_on_Kth 2 [10, 20] (by decide) (by decide)

/-- Claim C8: for every aggregation key with declared expected count `K ≥ 1`,
if more than `K` results arrive under that key the run fails with an overflow
error, and the atomic check-and-append discipline releases the buffer at most
once over any arrival sequence, preventing double release of the same
aggregation key. -/
theorem aggregation_overflow_and_single_release {α : Type} (K : Nat) (evs : List α)
    (_hK : 1 ≤ K) :
    (K < evs.length → collectRunChecked K [] evs = Except.error AggError.overflow) ∧
    (∀ bufF n, collectRunChecked K [] evs = Except.ok (bufF, n) → n ≤ 1) := by
  constructor
  · intro h
    exact collectRunChecked_overflow K evs [] (by simpa using h) (by simp)
  · intro bufF n h
    exact collectRunChecked_releases_le_one K evs [] bufF n h

theorem aggregation_overflow_and_single_release_witness :
    ((1 < ([5, 6] : List Nat).length →
        collectRunChecked 1 [] ([5, 6] : List Nat) = Except.error AggError.overflow) ∧
      (∀ bufF n, collectRunChecked 1 [] ([5, 6] : List Nat) = Except.ok (bufF, n) → n ≤ 1)) :=
  aggregation_overflow_and_single_release 1 [5, 6] (by decide)

/-! ### Driver scheduling lemmas -/

theorem feedOne_queue (st : DriverState) (r : String) : (feedOne st r).queue = st.queue := rfl

theorem feedOne_running (st : DriverState) (r : String) :
    (feedOne st r).running = st.running := rfl

theorem feedOne_numToCollect (st : DriverState) (r : String) :
    (feedOne st r).numToCollect = st.numToCollect := rfl

theorem feed_queue : ∀ (rs : List String) (st : DriverState), (feed st rs).queue = st.queue
  | [], _ => rfl
  | r :: rs, st => by
    rw [show feed st (r :: rs) = feed (feedOne st r) rs from rfl, feed_queue rs, feedOne_queue]

theorem feed_running : ∀ (rs : List String) (st : DriverState), (feed st rs).running = st.running
  | [], _ => rfl
  | r :: rs, st => by
    rw [show feed st (r :: rs) = feed (feedOne st r) rs from rfl, feed_running rs,
      feedOne_running]

theorem feed_numToCollect :
    ∀ (rs : List String) (st : DriverState), (feed st rs).numToCollect = st.numToCollect
  | [], _ => rfl
  | r :: rs, st => by
    rw [show feed st (r :: rs) = feed (feedOne st r) rs from rfl, feed_numToCollect rs,
      feedOne_numToCollect]

theorem completeStep_queue (st : DriverState) : (completeStep st).queue = st.queue := by
  rw [completeStep, feed_queue]

theorem completeStep_running (st : DriverState) :
    (completeStep st).running =
      (st.running.map (fun p => (p.1, p.2 - 1))).filter (fun p => p.2 != 0) := by
  rw [completeStep, feed_running]

theorem completeStep_numToCollect (st : DriverState) :
    (completeStep st).numToCollect = st.numToCollect := by
  rw [completeStep, feed_numToCollect]

theorem completeStep_running_le (st : DriverState) :
    (completeStep st).running.length ≤ st.running.length := by
  rw [completeStep_running]
  calc ((st.running.map (fun p => (p.1, p.2 - 1))).filter (fun p => p.2 != 0)).length
      ≤ (st.running.map (fun p => (p.1, p.2 - 1))).length := List.length_filter_le _ _
    _ = st.running.length := List.length_map _ _

theorem tick_of_stopped {N : Nat} {dur : String → Nat} {st : DriverState} {r : String}
    (h : st.stopped = some r) : tick N dur st = st := by
  rw [tick, h]

theorem tick_of_live {N : Nat} {dur : String → Nat} {st : DriverState}
    (h : st.stopped = none) : tick N dur st = tickRun N dur st := by
  rw [tick, h]

theorem tickRun_of_stop {N : Nat} {dur : String → Nat} {st : DriverState} {r : String}
    (h : (completeStep st).stopped = some r) : tickRun N dur st = completeStep st := by
  rw [tickRun, h]

theorem tickRun_of_go {N : Nat} {dur : String → Nat} {st : DriverState}
    (h : (completeStep st).stopped = none) :
    tickRun N dur st = dispatch N dur (completeStep st) := by
  rw [tickRun, h]

theorem iterate_of_stopped {N : Nat} {dur : String → Nat} {st : DriverState} {r : String}
    (h : st.stopped = some r) (k : Nat) : (tick N dur)^[k] st = st :=
  Function.iterate_fixed (tick_of_stopped h) k

theorem dispatch_queue (N : Nat) (dur : String → Nat) (st : DriverState) :
    (dispatch N dur st).queue = st.queue.drop (N - st.running.length) := rfl

theorem dispatch_running (N : Nat) (dur : String → Nat) (st : DriverState) :
    (dispatch N dur st).running =
      st.running ++ (st.queue.take (N - st.running.length)).map (fun d => (d, dur d)) := rfl

theorem dispatch_running_le {N : Nat} {dur : String → Nat} {st : DriverState}
    (h : st.running.length ≤ N) : (dispatch N dur st).running.length ≤ N := by
  rw [dispatch_running]
  have hmin := Nat.min_le_left (N - st.running.length) st.queue.length
  simp only [List.length_append, List.length_map, List.length_take]
  omega

theorem tick_running_le {N : Nat} {dur : String → Nat} {st : DriverState}
    (h : st.running.length ≤ N) : (tick N dur st).running.length ≤ N := by
  cases hst : st.stopped with
  | some r => rw [tick_of_stopped hst]; exact h
  | none =>
    rw [tick_of_live hst, tickRun]
    have hc : (completeStep st).running.length ≤ N :=
      le_trans (completeStep_running_le st) h
    cases (completeStep st).stopped with
    | some r => exact hc
    | none => exact dispatch_running_le hc

theorem iterate_running_le (N : Nat) (dur : String → Nat) (items : List String) (k : Nat) :
    ((tick N dur)^[k] (initState items)).running.length ≤ N := by
  induction k with
  | zero => simp [initState]
  | succ k ih =>
    rw [Function.iterate_succ_apply']
    exact tick_running_le ih

theorem dispatch_full {N : Nat} {dur : String → Nat} {st : DriverState}
    (h : st.running.length ≤ N) (hq : (dispatch N dur st).queue ≠ []) :
    (dispatch N dur st).running.length = N := by
  rw [dispatch_queue] at hq
  have hlt : N - st.running.length < st.queue.length := by
    by_contra hle
    push_neg at hle
    exact hq (List.drop_eq_nil_iff.mpr hle)
  rw [dispatch_running]
  have hmin := Nat.min_eq_left (le_of_lt hlt)
  simp only [List.length_append, List.length_map, List.length_take]
  omega

theorem tick_full {N : Nat} {dur : String → Nat} {st : DriverState}
    (h : st.running.length ≤ N) (hstop : (tick N dur st).stopped = none)
    (hq : (tick N dur st).queue ≠ []) : (tick N dur st).running.length = N := by
  cases hst : st.stopped with
  | some r =>
    rw [tick_of_stopped hst, hst] at hstop
    exact absurd hstop (by simp)
  | none =>
    rw [tick_of_live hst] at hstop hq ⊢
    have hc : (completeStep st).running.length ≤ N :=
      le_trans (completeStep_running_le st) h
    cases hcs : (completeStep st).stopped with
    | some r =>
      rw [tickRun_of_stop hcs, hcs] at hstop
      exact absurd hstop (by simp)
    | none =>
      rw [tickRun_of_go hcs] at hstop hq ⊢
      exact dispatch_full hc hq

/-! ### Driver loop lemmas -/

theorem runLoop_ok_of_stopped (N : Nat) (dur : String → Nat) :
    ∀ (fuel k : Nat) (st : DriverState) (r : String), k < fuel →
      ((tick N dur)^[k] st).stopped = some r → runLoop N dur fuel st = Except.ok r
  | 0, k, _, _, hk, _ => absurd hk (Nat.not_lt_zero k)
  | fuel + 1, k, st, r, hk, hstop => by
    cases hst : st.stopped with
    | some r0 =>
      rw [iterate_of_stopped hst k, hst] at hstop
      cases Option.some.inj hstop
      simp [runLoop, hst]
    | none =>
      cases k with
      | zero =>
        rw [Function.iterate_zero_apply, hst] at hstop
        exact absurd hstop (by simp)
      | succ j =>
        rw [Function.iterate_succ_apply] at hstop
        have ih := runLoop_ok_of_stopped N dur fuel j (tick N dur st) r (by omega) hstop
        simp [runLoop, hst, ih]

theorem runLoop_timeout (N : Nat) (dur : String → Nat) :
    ∀ (fuel : Nat) (st : DriverState),
      (∀ k, k < fuel → ((tick N dur)^[k] st).stopped = none) →
      runLoop N dur fuel st = Except.error RunError.timeout
  | 0, _, _ => rfl
  | fuel + 1, st, h => by
    have h0 : st.stopped = none := by simpa using h 0 (Nat.succ_pos fuel)
    have ih := runLoop_timeout N dur fuel (tick N dur st) (fun k hk => by
      have hx := h (k + 1) (by omega)
      rwa [Function.iterate_succ_apply] at hx)
    simp [runLoop, h0, ih]

/-! ### Claim theorems for the scheduler and driver -/

/-- Claim C1: for every concurrency bound `N ≥ 1`, at every point of a
workflow run (every iterate of the scheduling round from the initial state) a
step never has more than `N` invocations in flight; in particular with the
default bound `N = 1` at most one invocation runs at a time, so execution is
strictly sequential. -/
theorem bounded_concurrency (N : Nat) (dur : String → Nat) (items : List String) (k : Nat)
    (_hN : 1 ≤ N) :
    ((tick N dur)^[k] (initState items)).running.length ≤ N :=
  iterate_running_le N dur items k

theorem bounded_concurrency_witness :
    ((tick 1 (fun _ => 1))^[2] (initState data_list)).running.length ≤ 1 :=
  bounded_concurrency 1 (fun _ => 1) data_list 2 (by decide)

/-- Claim C7: ready events beyond the `N` in-flight executions wait in a
first-in-first-out queue and dispatch starts follow the queue order exactly:
dispatch always starts the longest-waiting prefix of the queue (what it starts
followed by what remains is exactly the former queue), and whenever workers
complete the freed slots are refilled in the same round — after any round of a
live run with a non-empty queue, all `N` worker slots are occupied. -/
theorem fifo_dispatch (N : Nat) (dur : String → Nat) (st : DriverState)
    (items : List String) (k : Nat)
    (hstop : ((tick N dur)^[k + 1] (initState items)).stopped = none)
    (hq : ((tick N dur)^[k + 1] (initState items)).queue ≠ []) :
    ((dispatch N dur st).running =
        st.running ++ (st.queue.take (N - st.running.length)).map (fun d => (d, dur d)) ∧
      st.queue.take (N - st.running.length) ++ (dispatch N dur st).queue = st.queue) ∧
    ((tick N dur)^[k + 1] (initState items)).running.length = N := by
  refine ⟨⟨dispatch_running N dur st, ?_⟩, ?_⟩
  · rw [dispatch_queue]
    exact List.take_append_drop _ _
  · rw [Function.iterate_succ_apply'] at hstop hq ⊢
    exact tick_full (iterate_running_le N dur items k) hstop hq

theorem fifo_dispatch_witness :
    (((dispatch 1 (fun _ => 1) (initState data_list)).running =
        (initState data_list).running ++
          ((initState data_list).queue.take (1 - (initState data_list).running.length)).map
            (fun d => (d, (fun _ => 1) d)) ∧
      (initState data_list).queue.take (1 - (initState data_list).running.length) ++
          (dispatch 1 (fun _ => 1) (initState data_list)).queue =
        (initState data_list).queue) ∧
    ((tick 1 (fun _ => 1))^[0 + 1] (initState data_list)).running.length = 1) :=
  fifo_dispatch 1 (fun _ => 1) (initState data_list) data_list 0 (by decide) (by decide)

/-- Claim C4: for every workflow run in which a terminal stop event is
produced (the driver state records its payload after some number of rounds
within the fuel bound), the driver's run operation halts and returns that
terminal event's payload as the workflow result. -/
theorem run_halts_with_terminal_payload (N : Nat) (dur : String → Nat) (items : List String)
    (fuel k : Nat) (r : String) (hk : k < fuel)
    (hstop : ((tick N dur)^[k] (initState items)).stopped = some r) :
    runWorkflow N dur items fuel = Except.ok r :=
  runLoop_ok_of_stopped N dur fuel k (initState items) r hk hstop

theorem run_halts_with_terminal_payload_witness :
    runWorkflow 1 (fun _ => 1) data_list 5 =
      Except.ok "Processed: A, Processed: B, Processed: C" :=
  run_halts_with_terminal_payload 1 (fun _ => 1) data_list 5 4
    "Processed: A, Processed: B, Processed: C" (by decide) (by decide)

/-- Claim C5: for every workflow run in which no terminal event is produced
within the bounded run time (no iterate within the fuel bound records a stop
payload), the driver's run operation fails with a timeout error rather than
hanging. -/
theorem run_times_out_without_terminal (N : Nat) (dur : String → Nat) (items : List String)
    (fuel : Nat)
    (h : ∀ k, k < fuel → ((tick N dur)^[k] (initState items)).stopped = none) :
    runWorkflow N dur items fuel = Except.error RunError.timeout :=
  runLoop_timeout N dur fuel (initState items) h

theorem run_times_out_without_terminal_witness :
    runWorkflow 1 (fun _ => 1) data_list 2 = Except.error RunError.timeout :=
  run_times_out_without_terminal 1 (fun _ => 1) data_list 2 (by decide)

/-! ### Effect of feeding one result on buffer, trace and stopped flag -/

theorem feedOne_buffer (st : DriverState) (r : String) :
    (feedOne st r).buffer = st.buffer ++ [r] := by
  simp [feedOne, combine_results, collect_events_fst]

theorem feed_buffer : ∀ (rs : List String) (st : DriverState),
    (feed st rs).buffer = st.buffer ++ rs
  | [], st => by simp [feed]
  | r :: rs, st => by
    rw [show feed st (r :: rs) = feed (feedOne st r) rs from rfl, feed_buffer rs,
      feedOne_buffer]
    simp

theorem combine_results_snd_of_eq {K : Nat} {buffer : List String} {r : String}
    (h : (buffer ++ [r]).length = K) :
    (combine_results K buffer r).2 = some (joinResults (buffer ++ [r])) := by
  simp [combine_results, collect_events_snd_of_eq h]

theorem combine_results_snd_of_ne {K : Nat} {buffer : List String} {r : String}
    (h : (buffer ++ [r]).length ≠ K) :
    (combine_results K buffer r).2 = none := by
  simp [combine_results, collect_events_snd_of_ne h]

theorem feedOne_trace_of_rel {st : DriverState} {r : String}
    (h : (st.buffer ++ [r]).length = st.numToCollect) :
    (feedOne st r).trace =
      st.trace ++ [WEvent.resultEv r, WEvent.stopEv (joinResults (st.buffer ++ [r]))] := by
  simp [feedOne, combine_results_snd_of_eq h]

theorem feedOne_trace_of_norel {st : DriverState} {r : String}
    (h : (st.buffer ++ [r]).length ≠ st.numToCollect) :
    (feedOne st r).trace = st.trace ++ [WEvent.resultEv r] := by
  simp [feedOne, combine_results_snd_of_ne h]

theorem feedOne_stopped_of_norel {st : DriverState} {r : String}
    (h : (st.buffer ++ [r]).length ≠ st.numToCollect) :
    (feedOne st r).stopped = st.stopped := by
  cases h0 : st.stopped <;> simp [feedOne, combine_results_snd_of_ne h, h0]

theorem feedOne_stopped_of_some {st : DriverState} {r : String} {s0 : String}
    (h0 : st.stopped = some s0) : (feedOne st r).stopped = some s0 := by
  simp [feedOne, h0]

theorem feedOne_stopped_rel_none {st : DriverState} {r : String}
    (h : (st.buffer ++ [r]).length = st.numToCollect) (h0 : st.stopped = none) :
    (feedOne st r).stopped = some (joinResults (st.buffer ++ [r])) := by
  simp [feedOne, combine_results_snd_of_eq h, h0]

/-! ### The start event is unique in the trace -/

theorem feedOne_countP_isStart (st : DriverState) (r : String) :
    (feedOne st r).trace.countP isStart = st.trace.countP isStart := by
  by_cases h : (st.buffer ++ [r]).length = st.numToCollect
  · rw [feedOne_trace_of_rel h]
    simp [isStart]
  · rw [feedOne_trace_of_norel h]
    simp [isStart]

theorem feed_countP_isStart : ∀ (rs : List String) (st : DriverState),
    (feed st rs).trace.countP isStart = st.trace.countP isStart
  | [], _ => rfl
  | r :: rs, st => by
    rw [show feed st (r :: rs) = feed (feedOne st r) rs from rfl, feed_countP_isStart rs,
      feedOne_countP_isStart]

theorem tick_countP_isStart (N : Nat) (dur : String → Nat) (st : DriverState) :
    (tick N dur st).trace.countP isStart = st.trace.countP isStart := by
  cases hst : st.stopped with
  | some r => rw [tick_of_stopped hst]
  | none =>
    rw [tick_of_live hst]
    have hcomp : (completeStep st).trace.countP isStart = st.trace.countP isStart :=
      feed_countP_isStart _ _
    cases hcs : (completeStep st).stopped with
    | some r => rw [tickRun_of_stop hcs]; exact hcomp
    | none => rw [tickRun_of_go hcs]; exact hcomp

theorem iterate_countP_isStart (N : Nat) (dur : String → Nat) (items : List String) (k : Nat) :
    ((tick N dur)^[k] (initState items)).trace.countP isStart = 1 := by
  induction k with
  | zero =>
    simp [initState, isStart, List.countP_cons]
  | succ k ih =>
    rw [Function.iterate_succ_apply', tick_countP_isStart]
    exact ih

/-! ### The stop event appears exactly on completion of the expected count -/

theorem feedOne_stopCountOk {st : DriverState} {r : String} (h : stopCountOk st) :
    stopCountOk (feedOne st r) := by
  unfold stopCountOk at h ⊢
  rw [feedOne_numToCollect, feedOne_buffer]
  by_cases hrel : (st.buffer ++ [r]).length = st.numToCollect
  · rw [feedOne_trace_of_rel hrel, List.countP_append]
    have hc : List.countP isStop
        [WEvent.resultEv r, WEvent.stopEv (joinResults (st.buffer ++ [r]))] = 1 := by
      simp [isStop]
    have hlen : st.buffer.length + 1 = st.numToCollect := by simpa using hrel
    have hold : ¬(1 ≤ st.numToCollect ∧ st.numToCollect ≤ st.buffer.length) := by
      rintro ⟨-, h2⟩
      omega
    have hnew : 1 ≤ st.numToCollect ∧ st.numToCollect ≤ (st.buffer ++ [r]).length := by
      refine ⟨by omega, ?_⟩
      simp
      omega
    rw [hc, h, if_neg hold, if_pos hnew]
  · rw [feedOne_trace_of_norel hrel, List.countP_append]
    have hc : List.countP isStop [WEvent.resultEv r] = 0 := by simp [isStop]
    have hlen : st.buffer.length + 1 ≠ st.numToCollect := by simpa using hrel
    rw [hc, h]
    by_cases hcond : 1 ≤ st.numToCollect ∧ st.numToCollect ≤ st.buffer.length
    · have hnew : 1 ≤ st.numToCollect ∧ st.numToCollect ≤ (st.buffer ++ [r]).length := by
        refine ⟨hcond.1, ?_⟩
        simp
        omega
      rw [if_pos hcond, if_pos hnew]
    · have hnew : ¬(1 ≤ st.numToCollect ∧ st.numToCollect ≤ (st.buffer ++ [r]).length) := by
        rintro ⟨h1, h2⟩
        simp at h2
        exact hcond ⟨h1, by omega⟩
      rw [if_neg hcond, if_neg hnew]

theorem feed_stopCountOk : ∀ (rs : List String) {st : DriverState},
    stopCountOk st → stopCountOk (feed st rs)
  | [], _, h => h
  | r :: rs, st, h => by
    rw [show feed st (r :: rs) = feed (feedOne st r) rs from rfl]
    exact feed_stopCountOk rs (feedOne_stopCountOk h)

theorem completeStep_stopCountOk {st : DriverState} (h : stopCountOk st) :
    stopCountOk (completeStep st) :=
  feed_stopCountOk _ h

theorem dispatch_stopCountOk {N : Nat} {dur : String → Nat} {st : DriverState}
    (h : stopCountOk st) : stopCountOk (dispatch N dur st) := h

theorem tick_stopCountOk {N : Nat} {dur : String → Nat} {st : DriverState}
    (h : stopCountOk st) : stopCountOk (tick N dur st) := by
  cases hst : st.stopped with
  | some r => rw [tick_of_stopped hst]; exact h
  | none =>
    rw [tick_of_live hst]
    cases hcs : (completeStep st).stopped with
    | some r => rw [tickRun_of_stop hcs]; exact completeStep_stopCountOk h
    | none => rw [tickRun_of_go hcs]; exact dispatch_stopCountOk (completeStep_stopCountOk h)

theorem initState_stopCountOk (items : List String) : stopCountOk (initState items) := by
  unfold stopCountOk
  have hc : (initState items).trace.countP isStop = 0 := by
    simp [initState, isStop, List.countP_cons, List.countP_map]
  rw [hc, if_neg]
  rintro ⟨h1, h2⟩
  simp [initState] at h1 h2
  subst h2
  simp at h1

theorem iterate_stopCountOk (N : Nat) (dur : String → Nat) (items : List String) (k : Nat) :
    stopCountOk ((tick N dur)^[k] (initState items)) := by
  induction k with
  | zero => exact initState_stopCountOk items
  | succ k ih =>
    rw [Function.iterate_succ_apply']
    exact tick_stopCountOk ih

/-- Claim C6: every workflow run has exactly one start event (at every point
of the run the trace contains exactly one `StartEvent`) and produces at most
one stop event; moreover the trace contains a `StopEvent` exactly when the
aggregation buffer has reached the expected count, i.e. `combine_results`
returns a `StopEvent` only on the arrival completing the expected count and
`none` on every other arrival. -/
theorem one_start_at_most_one_stop (N : Nat) (dur : String → Nat) (items : List String)
    (k : Nat) :
    ((tick N dur)^[k] (initState items)).trace.countP isStart = 1 ∧
    ((tick N dur)^[k] (initState items)).trace.countP isStop ≤ 1 ∧
    ((tick N dur)^[k] (initState items)).trace.countP isStop =
      (if 1 ≤ ((tick N dur)^[k] (initState items)).numToCollect ∧
          ((tick N dur)^[k] (initState items)).numToCollect ≤
            ((tick N dur)^[k] (initState items)).buffer.length
        then 1 else 0) := by
  have hcount := iterate_stopCountOk N dur items k
  unfold stopCountOk at hcount
  refine ⟨iterate_countP_isStart N dur items k, ?_, hcount⟩
  rw [hcount]
  split <;> omega

/-! ### numToCollect is constant along a run -/

theorem dispatch_numToCollect (N : Nat) (dur : String → Nat) (st : DriverState) :
    (dispatch N dur st).numToCollect = st.numToCollect := rfl

theorem tick_numToCollect (N : Nat) (dur : String → Nat) (st : DriverState) :
    (tick N dur st).numToCollect = st.numToCollect := by
  cases hst : st.stopped with
  | some r => rw [tick_of_stopped hst]
  | none =>
    rw [tick_of_live hst]
    cases hcs : (completeStep st).stopped with
    | some r => rw [tickRun_of_stop hcs, completeStep_numToCollect]
    | none => rw [tickRun_of_go hcs, dispatch_numToCollect, completeStep_numToCollect]

theorem iterate_numToCollect (N : Nat) (dur : String → Nat) (items : List String) (k : Nat) :
    ((tick N dur)^[k] (initState items)).numToCollect = items.length := by
  induction k with
  | zero => rfl
  | succ k ih =>
    rw [Function.iterate_succ_apply', tick_numToCollect]
    exact ih

/-! ### The recorded terminal payload joins the released buffer -/

theorem feedOne_stoppedConsistent {st : DriverState} {r : String}
    (h : stoppedConsistent st) : stoppedConsistent (feedOne st r) := by
  intro s hs
  rw [feedOne_buffer, feedOne_numToCollect]
  by_cases hrel : (st.buffer ++ [r]).length = st.numToCollect
  · cases h0 : st.stopped with
    | some s0 =>
      rw [feedOne_stopped_of_some h0] at hs
      obtain ⟨he, hle⟩ := h s0 h0
      cases Option.some.inj hs
      refine ⟨?_, ?_⟩
      · rw [List.take_append_of_le_length hle]
        exact he
      · simp
        omega
    | none =>
      rw [feedOne_stopped_rel_none hrel h0] at hs
      cases Option.some.inj hs
      refine ⟨?_, le_of_eq hrel.symm⟩
      rw [← hrel, List.take_length]
  · rw [feedOne_stopped_of_norel hrel] at hs
    obtain ⟨he, hle⟩ := h s hs
    refine ⟨?_, ?_⟩
    · rw [List.take_append_of_le_length hle]
      exact he
    · simp
      omega

theorem feed_stoppedConsistent : ∀ (rs : List String) {st : DriverState},
    stoppedConsistent st → stoppedConsistent (feed st rs)
  | [], _, h => h
  | r :: rs, st, h => by
    rw [show feed st (r :: rs) = feed (feedOne st r) rs from rfl]
    exact feed_stoppedConsistent rs (feedOne_stoppedConsistent h)

theorem completeStep_stoppedConsistent {st : DriverState} (h : stoppedConsistent st) :
    stoppedConsistent (completeStep st) :=
  feed_stoppedConsistent _ h

theorem dispatch_stoppedConsistent {N : Nat} {dur : String → Nat} {st : DriverState}
    (h : stoppedConsistent st) : stoppedConsistent (dispatch N dur st) := h

theorem tick_stoppedConsistent {N : Nat} {dur : String → Nat} {st : DriverState}
    (h : stoppedConsistent st) : stoppedConsistent (tick N dur st) := by
  cases hst : st.stopped with
  | some r => rw [tick_of_stopped hst]; exact h
  | none =>
    rw [tick_of_live hst]
    cases hcs : (completeStep st).stopped with
    | some r => rw [tickRun_of_stop hcs]; exact completeStep_stoppedConsistent h
    | none =>
      rw [tickRun_of_go hcs]
      exact dispatch_stoppedConsistent (completeStep_stoppedConsistent h)

theorem initState_stoppedConsistent (items : List String) :
    stoppedConsistent (initState items) := by
  intro s hs
  simp [initState] at hs

theorem iterate_stoppedConsistent (N : Nat) (dur : String → Nat) (items : List String)
    (k : Nat) : stoppedConsistent ((tick N dur)^[k] (initState items)) := by
  induction k with
  | zero => exact initState_stoppedConsistent items
  | succ k ih =>
    rw [Function.iterate_succ_apply']
    exact tick_stoppedConsistent ih

/-! ### The label multiset is conserved by scheduling rounds -/

theorem feedOne_resultBag (st : DriverState) (r : String) :
    resultBag (feedOne st r) = resultBag st + (([r] : List String) : Multiset String) := by
  unfold resultBag
  rw [feedOne_buffer, feedOne_queue, feedOne_running, ← Multiset.coe_add, ← add_assoc]

theorem feed_resultBag : ∀ (rs : List String) (st : DriverState),
    resultBag (feed st rs) = resultBag st + (rs : Multiset String)
  | [], st => by
    rw [show feed st [] = st from rfl]
    simp
  | r :: rs, st => by
    rw [show feed st (r :: rs) = feed (feedOne st r) rs from rfl, feed_resultBag rs,
      feedOne_resultBag, add_assoc, Multiset.coe_add]
    simp

theorem running_labels_split (l : List (String × Nat)) :
    (((l.filter (fun p => p.2 == 0)).map (fun p => process_data p.1) : List String) :
        Multiset String) +
      (((l.filter (fun p => p.2 != 0)).map (fun p => process_data p.1) : List String) :
        Multiset String) =
      ((l.map (fun p => process_data p.1) : List String) : Multiset String) := by
  rw [Multiset.coe_add]
  apply Multiset.coe_eq_coe.mpr
  rw [← List.map_append]
  apply List.Perm.map
  exact List.filter_append_perm _ l

theorem completeStep_resultBag (st : DriverState) :
    resultBag (completeStep st) = resultBag st := by
  unfold completeStep
  rw [feed_resultBag]
  unfold resultBag
  simp only []
  have hsplit := running_labels_split (st.running.map (fun p => (p.1, p.2 - 1)))
  have hmm : (st.running.map (fun p => (p.1, p.2 - 1))).map (fun p => process_data p.1) =
      st.running.map (fun p => process_data p.1) := by
    rw [List.map_map]
    rfl
  rw [hmm] at hsplit
  rw [← hsplit]
  abel

theorem dispatch_resultBag (N : Nat) (dur : String → Nat) (st : DriverState) :
    resultBag (dispatch N dur st) = resultBag st := by
  unfold dispatch resultBag
  simp only []
  have hrun : (st.running ++ (st.queue.take (N - st.running.length)).map
        (fun d => (d, dur d))).map (fun p => process_data p.1) =
      st.running.map (fun p => process_data p.1) ++
        (st.queue.take (N - st.running.length)).map process_data := by
    rw [List.map_append, List.map_map]
    rfl
  have hq : st.queue.map process_data =
      (st.queue.take (N - st.running.length)).map process_data ++
        (st.queue.drop (N - st.running.length)).map process_data := by
    rw [← List.map_append, List.take_append_drop]
  rw [hrun, hq, ← Multiset.coe_add, ← Multiset.coe_add]
  abel

theorem tick_resultBag (N : Nat) (dur : String → Nat) (st : DriverState) :
    resultBag (tick N dur st) = resultBag st := by
  cases hst : st.stopped with
  | some r => rw [tick_of_stopped hst]
  | none =>
    rw [tick_of_live hst]
    cases hcs : (completeStep st).stopped with
    | some r => rw [tickRun_of_stop hcs, completeStep_resultBag]
    | none => rw [tickRun_of_go hcs, dispatch_resultBag, completeStep_resultBag]

theorem iterate_resultBag (N : Nat) (dur : String → Nat) (items : List String) (k : Nat) :
    resultBag ((tick N dur)^[k] (initState items)) =
      ((items.map process_data : List String) : Multiset String) := by
  induction k with
  | zero => simp [resultBag, initState]
  | succ k ih =>
    rw [Function.iterate_succ_apply', tick_resultBag]
    exact ih

/-! ### Any successful run joins a permutation of the processed labels -/

theorem runLoop_ok_exists_stopped (N : Nat) (dur : String → Nat) :
    ∀ (fuel : Nat) (st : DriverState) (s : String),
      runLoop N dur fuel st = Except.ok s →
      ∃ k, k < fuel ∧ ((tick N dur)^[k] st).stopped = some s
  | 0, st, s, h => by simp [runLoop] at h
  | fuel + 1, st, s, h => by
    cases hst : st.stopped with
    | some r =>
      simp [runLoop, hst] at h
      exact ⟨0, Nat.succ_pos fuel, by rw [Function.iterate_zero_apply, hst, h]⟩
    | none =>
      simp only [runLoop, hst] at h
      obtain ⟨k, hk, hstop⟩ := runLoop_ok_exists_stopped N dur fuel (tick N dur st) s h
      exact ⟨k + 1, by omega, by rwa [Function.iterate_succ_apply]⟩

theorem run_ok_result_perm (N : Nat) (dur : String → Nat) (items : List String)
    (fuel : Nat) (s : String) (h : runWorkflow N dur items fuel = Except.ok s) :
    ∃ l : List String, List.Perm l (items.map process_data) ∧ s = joinResults l := by
  obtain ⟨k, hk, hstop⟩ := runLoop_ok_exists_stopped N dur fuel (initState items) s h
  obtain ⟨hs, hle⟩ := iterate_stoppedConsistent N dur items k s hstop
  have hbag := iterate_resultBag N dur items k
  have hK := iterate_numToCollect N dur items k
  have hcard := congrArg Multiset.card hbag
  rw [resultBag] at hcard
  simp only [Multiset.card_add, Multiset.coe_card, List.length_map] at hcard
  rw [hK] at hle
  have hbuf_len : ((tick N dur)^[k] (initState items)).buffer.length = items.length := by
    omega
  have hq0 : ((tick N dur)^[k] (initState items)).queue = [] :=
    List.length_eq_zero.mp (by omega)
  have hr0 : ((tick N dur)^[k] (initState items)).running = [] :=
    List.length_eq_zero.mp (by omega)
  refine ⟨((tick N dur)^[k] (initState items)).buffer, ?_, ?_⟩
  · apply Multiset.coe_eq_coe.mp
    rw [← hbag, resultBag, hq0, hr0]
    simp
  · rw [hs, hK, ← hbuf_len, List.take_length]

/-- Claim C9: in the end-to-end scenario with the 3 input items of the
notebook and concurrency bound 3 (`ParallelWorkflow` with `num_workers=3`),
whatever the per-item delays, a successful run's combined result is the
`", "`-join of a permutation of the three processed labels "Processed: A",
"Processed: B", "Processed: C" — each label exactly once, in some order. -/
theorem parallel_run_contains_all_labels (dur : String → Nat) (fuel : Nat) (s : String)
    (h : runWorkflow 3 dur data_list fuel = Except.ok s) :
    ∃ l : List String,
      List.Perm l ["Processed: A", "Processed: B", "Processed: C"] ∧ s = joinResults l := by
  obtain ⟨l, hperm, hjoin⟩ := run_ok_result_perm 3 dur data_list fuel s h
  have hlab : data_list.map process_data =
      ["Processed: A", "Processed: B", "Processed: C"] := rfl
  rw [hlab] at hperm
  exact ⟨l, hperm, hjoin⟩

theorem parallel_run_contains_all_labels_witness :
    ∃ l : List String,
      List.Perm l ["Processed: A", "Processed: B", "Processed: C"] ∧
        "Processed: A, Processed: B, Processed: C" = joinResults l :=
  parallel_run_contains_all_labels (fun _ => 1) 5
    "Processed: A, Processed: B, Processed: C" (by rfl)

/-- Claim C10: `SequentialWorkflow` (bound 1) and `ParallelWorkflow` (bound 3)
are equivalent up to ordering on the input list ["A", "B", "C"]: whenever both
runs succeed, each returns the `", "`-join of a list of processed labels, the
two lists are permutations of each other, and both are permutations of the
three processed labels — only the order within the string may differ. -/
theorem sequential_parallel_equivalent_up_to_order (dur1 dur2 : String → Nat)
    (fuel1 fuel2 : Nat) (s1 s2 : String)
    (h1 : runWorkflow 1 dur1 data_list fuel1 = Except.ok s1)
    (h2 : runWorkflow 3 dur2 data_list fuel2 = Except.ok s2) :
    ∃ l1 l2 : List String,
      s1 = joinResults l1 ∧ s2 = joinResults l2 ∧ List.Perm l1 l2 ∧
        List.Perm l1 ["Processed: A", "Processed: B", "Processed: C"] := by
  obtain ⟨l1, hp1, hj1⟩ := run_ok_result_perm 1 dur1 data_list fuel1 s1 h1
  obtain ⟨l2, hp2, hj2⟩ := run_ok_result_perm 3 dur2 data_list fuel2 s2 h2
  have hlab : data_list.map process_data =
      ["Processed: A", "Processed: B", "Processed: C"] := rfl
  rw [hlab] at hp1 hp2
  exact ⟨l1, l2, hj1, hj2, hp1.trans hp2.symm, hp1⟩

theorem sequential_parallel_equivalent_up_to_order_witness :
    ∃ l1 l2 : List String,
      "Processed: A, Processed: B, Processed: C" = joinResults l1 ∧
        "Processed: A, Processed: B, Processed: C" = joinResults l2 ∧
        List.Perm l1 l2 ∧
        List.Perm l1 ["Processed: A", "Processed: B", "Processed: C"] :=
  sequential_parallel_equivalent_up_to_order (fun _ => 1) (fun _ => 1) 5 5
    "Processed: A, Processed: B, Processed: C" "Processed: A, Processed: B, Processed: C"
    (by rfl) (by rfl)

/-! ### The sequential run (bound 1) completes items strictly in input order -/

theorem combine_results_fst (K : Nat) (buffer : List String) (r : String) :
    (combine_results K buffer r).1 = buffer ++ [r] := by
  simp [combine_results, collect_events_fst]

theorem feedOne_explicit_rel (q : List String) (rn : List (String × Nat)) (buf : List String)
    (K : Nat) (tr : List WEvent) (r : String) (hrel : (buf ++ [r]).length = K) :
    feedOne ⟨q, rn, buf, K, tr, none⟩ r =
      ⟨q, rn, buf ++ [r], K,
        tr ++ [WEvent.resultEv r, WEvent.stopEv (joinResults (buf ++ [r]))],
        some (joinResults (buf ++ [r]))⟩ := by
  unfold feedOne
  simp [combine_results_fst, combine_results_snd_of_eq hrel]

theorem feedOne_explicit_norel (q : List String) (rn : List (String × Nat))
    (buf : List String) (K : Nat) (tr : List WEvent) (r : String)
    (hrel : (buf ++ [r]).length ≠ K) :
    feedOne ⟨q, rn, buf, K, tr, none⟩ r =
      ⟨q, rn, buf ++ [r], K, tr ++ [WEvent.resultEv r], none⟩ := by
  unfold feedOne
  simp [combine_results_fst, combine_results_snd_of_ne hrel]

theorem seq_tick_dec (dur : String → Nat) (a : String) (t : Nat) (q buf : List String)
    (K : Nat) (tr : List WEvent) (ht : t ≠ 0) :
    tick 1 dur ⟨q, [(a, t + 1)], buf, K, tr, none⟩ = ⟨q, [(a, t)], buf, K, tr, none⟩ := by
  have hcs : completeStep ⟨q, [(a, t + 1)], buf, K, tr, none⟩ =
      ⟨q, [(a, t)], buf, K, tr, none⟩ := by
    unfold completeStep
    simp [feed, ht]
  have hstop : (completeStep ⟨q, [(a, t + 1)], buf, K, tr, none⟩).stopped = none := by
    rw [hcs]
  rw [tick_of_live rfl, tickRun_of_go hstop, hcs]
  unfold dispatch
  simp

theorem seq_countdown (dur : String → Nat) (a : String) :
    ∀ (t : Nat) (q buf : List String) (K : Nat) (tr : List WEvent),
      (tick 1 dur)^[t] ⟨q, [(a, t + 1)], buf, K, tr, none⟩ = ⟨q, [(a, 1)], buf, K, tr, none⟩
  | 0, q, buf, K, tr => rfl
  | t + 1, q, buf, K, tr => by
    rw [Function.iterate_succ_apply, seq_tick_dec dur a (t + 1) q buf K tr (Nat.succ_ne_zero t)]
    exact seq_countdown dur a t q buf K tr

theorem seq_tick_complete_rel (dur : String → Nat) (a : String) (q buf : List String)
    (K : Nat) (tr : List WEvent) (hrel : (buf ++ [process_data a]).length = K) :
    tick 1 dur ⟨q, [(a, 1)], buf, K, tr, none⟩ =
      ⟨q, [], buf ++ [process_data a], K,
        tr ++ [WEvent.resultEv (process_data a),
          WEvent.stopEv (joinResults (buf ++ [process_data a]))],
        some (joinResults (buf ++ [process_data a]))⟩ := by
  have hcs : completeStep ⟨q, [(a, 1)], buf, K, tr, none⟩ =
      feedOne ⟨q, [], buf, K, tr, none⟩ (process_data a) := by
    unfold completeStep
    simp [feed]
  have hfo := feedOne_explicit_rel q [] buf K tr (process_data a) hrel
  have hstop : (completeStep ⟨q, [(a, 1)], buf, K, tr, none⟩).stopped =
      some (joinResults (buf ++ [process_data a])) := by
    rw [hcs, hfo]
  rw [tick_of_live rfl, tickRun_of_stop hstop, hcs, hfo]

theorem seq_tick_complete_norel (dur : String → Nat) (a : String) (q buf : List String)
    (K : Nat) (tr : List WEvent) (hrel : (buf ++ [process_data a]).length ≠ K) :
    tick 1 dur ⟨q, [(a, 1)], buf, K, tr, none⟩ =
      ⟨q.drop 1, (q.take 1).map (fun d => (d, dur d)), buf ++ [process_data a], K,
        tr ++ [WEvent.resultEv (process_data a)], none⟩ := by
  have hcs : completeStep ⟨q, [(a, 1)], buf, K, tr, none⟩ =
      feedOne ⟨q, [], buf, K, tr, none⟩ (process_data a) := by
    unfold completeStep
    simp [feed]
  have hfo := feedOne_explicit_norel q [] buf K tr (process_data a) hrel
  have hstop : (completeStep ⟨q, [(a, 1)], buf, K, tr, none⟩).stopped = none := by
    rw [hcs, hfo]
  rw [tick_of_live rfl, tickRun_of_go hstop, hcs, hfo]
  unfold dispatch
  simp

theorem seq_run_aux (dur : String → Nat) (hdur : ∀ x, 1 ≤ dur x) :
    ∀ (q : List String) (a : String) (buf : List String) (tr : List WEvent) (K : Nat),
      buf.length + 1 + q.length = K →
      ∃ m, (tick 1 dur)^[m] ⟨q, [(a, dur a)], buf, K, tr, none⟩ =
        ⟨[], [], buf ++ (a :: q).map process_data, K,
          tr ++ (a :: q).map (fun d => WEvent.resultEv (process_data d)) ++
            [WEvent.stopEv (joinResults (buf ++ (a :: q).map process_data))],
          some (joinResults (buf ++ (a :: q).map process_data))⟩
  | [], a, buf, tr, K, hlen => by
    obtain ⟨t, ht⟩ : ∃ t, dur a = t + 1 := ⟨dur a - 1, by have := hdur a; omega⟩
    have hrel : (buf ++ [process_data a]).length = K := by
      simp at hlen ⊢
      omega
    refine ⟨t + 1, ?_⟩
    rw [ht, Function.iterate_succ_apply', seq_countdown dur a t [] buf K tr,
      seq_tick_complete_rel dur a [] buf K tr hrel]
    simp
  | b :: q', a, buf, tr, K, hlen => by
    obtain ⟨t, ht⟩ : ∃ t, dur a = t + 1 := ⟨dur a - 1, by have := hdur a; omega⟩
    have hnorel : (buf ++ [process_data a]).length ≠ K := by
      simp at hlen ⊢
      omega
    obtain ⟨m', hm'⟩ := seq_run_aux dur hdur q' b (buf ++ [process_data a])
      (tr ++ [WEvent.resultEv (process_data a)]) K (by simp at hlen ⊢; omega)
    refine ⟨(t + 1) + m', ?_⟩
    rw [ht, Nat.add_comm (t + 1) m', Function.iterate_add_apply,
      Function.iterate_succ_apply', seq_countdown dur a t (b :: q') buf K tr,
      seq_tick_complete_norel dur a (b :: q') buf K tr hnorel]
    simp only [List.drop_succ_cons, List.drop_zero, List.take_succ_cons, List.take_zero,
      List.map_cons, List.map_nil]
    rw [hm']
    simp

theorem seq_first_tick (dur : String → Nat) (a : String) (rest : List String) :
    tick 1 dur (initState (a :: rest)) =
      ⟨rest, [(a, dur a)], [], (a :: rest).length,
        WEvent.startEv :: (a :: rest).map WEvent.processEv, none⟩ := by
  have hcs : completeStep (initState (a :: rest)) = initState (a :: rest) := by
    unfold completeStep initState
    simp [feed]
  have hstop : (completeStep (initState (a :: rest))).stopped = none := by
    rw [hcs]
    rfl
  rw [tick_of_live rfl, tickRun_of_go hstop, hcs]
  unfold dispatch initState
  simp

/-- Claim C3: with concurrency bound 1 (the default used by
`SequentialWorkflow`), for every non-empty input list and positive per-item
delays, the run reaches a final state whose trace lists the result events
exactly in input arrival order, whose buffer collects the processed labels in
input order, and whose terminal payload is the join of the labels in input
order — and for any sufficient fuel the driver returns exactly that in-order
combined result (in the 3-item scenario: "Processed: A, Processed: B,
Processed: C"). -/
theorem sequential_preserves_input_order (dur : String → Nat) (items : List String)
    (hdur : ∀ x, 1 ≤ dur x) (hne : items ≠ []) :
    ∃ m, (tick 1 dur)^[m] (initState items) =
        ⟨[], [], items.map process_data, items.length,
          (WEvent.startEv :: items.map WEvent.processEv) ++
            items.map (fun d => WEvent.resultEv (process_data d)) ++
            [WEvent.stopEv (joinResults (items.map process_data))],
          some (joinResults (items.map process_data))⟩ ∧
      ∀ fuel, m < fuel →
        runWorkflow 1 dur items fuel = Except.ok (joinResults (items.map process_data)) := by
  obtain ⟨a, rest, rfl⟩ := List.exists_cons_of_ne_nil hne
  obtain ⟨m', hm'⟩ := seq_run_aux dur hdur rest a []
    (WEvent.startEv :: (a :: rest).map WEvent.processEv) (a :: rest).length
    (by simp; omega)
  have heq : (tick 1 dur)^[m' + 1] (initState (a :: rest)) =
      ⟨[], [], (a :: rest).map process_data, (a :: rest).length,
        (WEvent.startEv :: (a :: rest).map WEvent.processEv) ++
          (a :: rest).map (fun d => WEvent.resultEv (process_data d)) ++
          [WEvent.stopEv (joinResults ((a :: rest).map process_data))],
        some (joinResults ((a :: rest).map process_data))⟩ := by
    rw [Function.iterate_add_apply, Function.iterate_one, seq_first_tick dur a rest, hm']
    simp
  refine ⟨m' + 1, heq, fun fuel hfuel => ?_⟩
  apply runLoop_ok_of_stopped 1 dur fuel (m' + 1) (initState (a :: rest)) _ hfuel
  rw [heq]

theorem sequential_preserves_input_order_witness :
    ∃ m, (tick 1 (fun _ => 1))^[m] (initState data_list) =
        ⟨[], [], data_list.map process_data, data_list.length,
          (WEvent.startEv :: data_list.map WEvent.processEv) ++
            data_list.map (fun d => WEvent.resultEv (process_data d)) ++
            [WEvent.stopEv (joinResults (data_list.map process_data))],
          some (joinResults (data_list.map process_data))⟩ ∧
      ∀ fuel, m < fuel →
        runWorkflow 1 (fun _ => 1) data_list fuel =
          Except.ok (joinResults (data_list.map process_data)) :=
  sequential_preserves_input_order (fun _ => 1) data_list (fun _ => le_refl 1) (by decide)

end WorkflowModel
